import Mathlib

/-
Verification of the jaq lowering pass (src/jaq-core/src/unparse.rs).

The AST types, the IR filter type and its substitution operator, and the
parameter type come from collaborating crates that are outside the verified
source file; those are modelled from the specification and marked
`Modelled from the spec` in their doc comments.  Everything else is a direct
shallow embedding of unparse.rs.  Rust panics (unwrap, unguarded indexing)
are modelled by returning `none`.
-/

namespace Jaq

/-- Source span of an AST node (start and end offset), carried for diagnostics. -/
abbrev Span := Nat × Nat

/-- A diagnostic as produced by Error::custom: a source span plus a message. -/
structure Error where
  span : Span
  msg : String
  deriving DecidableEq, Repr

/-- Arithmetic operators, carried through unchanged from the parser. -/
inductive MathOp
  | Add | Sub | Mul | Div | Rem
  deriving DecidableEq, Repr

/-- Ordering operators, carried through unchanged from the parser. -/
inductive OrdOp
  | Lt | Le | Gt | Ge | Eq | Ne
  deriving DecidableEq, Repr

/-- The three fold kinds (reduce / for / foreach). -/
inductive FoldType
  | Reduce | For | Foreach
  deriving DecidableEq, Repr

/-- Assignment operators: assign, update, update-with-op. -/
inductive AssignOp
  | Assign | Update | UpdateWith (op : MathOp)
  deriving DecidableEq, Repr

/-- Binary AST operators; a pipe carries an optional binder name. -/
inductive BinaryOp
  | Pipe (binder : Option String)
  | Comma | Alt | Or | And
  | Math (op : MathOp)
  | Ord (op : OrdOp)
  | Assign (op : AssignOp)
  deriving DecidableEq, Repr

/-- Per-segment optionality flag of a path part. -/
inductive PathOpt
  | Optional | Essential
  deriving DecidableEq, Repr

/-- A path part: an index, or a range with optional endpoints (polymorphic,
shared between the AST and the IR exactly as in the source crates). -/
inductive Part (α : Type)
  | Index (i : α)
  | Range (lower upper : Option α)
  deriving DecidableEq, Repr

mutual

/-- The AST expression (jaq_parse::filter::Filter); every child carries a span. -/
inductive Expr
  | Call (name : String) (args : List (Expr × Span))
  | Var (v : String)
  | Binary (l : Expr × Span) (op : BinaryOp) (r : Expr × Span)
  | Fold (typ : FoldType) (xs : Expr × Span) (x : String) (init : Expr × Span) (f : Expr × Span)
  | Id
  | Num (n : String)
  | Str (s : String)
  | Array (a : Option (Expr × Span))
  | Object (o : List KeyVal)
  | Try (f : Expr × Span)
  | Neg (f : Expr × Span)
  | Recurse
  | Ite (ifThens : List ((Expr × Span) × (Expr × Span))) (else_ : Expr × Span)
  | Path (f : Expr × Span) (path : List (Part (Expr × Span) × PathOpt))

/-- An object entry: (filter-key, filter-value), or a string key with an
optional value. -/
inductive KeyVal
  | Filter (k : Expr × Span) (v : Expr × Span)
  | Str (k : String) (v : Option (Expr × Span))

end

/-- Modelled from the spec: the payload of a Float IR literal.  The source
stores a Rust f64 (floating point lives outside the verified file); the value
is modelled as the exact rational denoted by the literal, plus the special
values, and no claim depends on IEEE-754 rounding. -/
inductive F64
  | finite (q : ℚ)
  | inf (neg : Bool)
  | nan
  deriving DecidableEq, Repr

/-- Modelled from the spec, section 3: the IR filter (crate::filter::Filter,
outside the verified file), with exactly the variants the spec lists. -/
inductive Filter
  | Id
  | Int (n : Int)
  | Float (f : F64)
  | Str (s : String)
  | Array (f : Option Filter)
  | Object (kvs : List (Filter × Filter))
  | Neg (f : Filter)
  | Try (f : Filter)
  | Pipe (l : Filter) (binds : Bool) (r : Filter)
  | Comma (l : Filter) (r : Filter)
  | Alt (l : Filter) (r : Filter)
  | Logic (l : Filter) (isOr : Bool) (r : Filter)
  | Math (l : Filter) (op : MathOp) (r : Filter)
  | Ord (l : Filter) (op : OrdOp) (r : Filter)
  | Assign (l : Filter) (r : Filter)
  | Update (l : Filter) (r : Filter)
  | UpdateMath (l : Filter) (op : MathOp) (r : Filter)
  | Ite (i : Filter) (t : Filter) (e : Filter)
  | Fold (typ : FoldType) (xs : Filter) (init : Filter) (f : Filter)
  | Path (f : Filter) (parts : List (Part Filter × PathOpt))
  | Var (v : Nat)
  | Arg (a : Nat)
  | Call (skip : Nat) (id : Nat)
  | SkipCtx (n : Nat) (f : Filter)
  | Recurse

/-- Modelled from the spec: the placeholder value stored in a freshly reserved
table slot (Filter::default(), outside the verified file).  No claim depends
on which variant the placeholder is. -/
def Filter.default : Filter := .Id

/-- Modelled from the spec: the distinguished recurse constant of the IR
(Filter::recurse(), outside the verified file).  No claim depends on its shape. -/
def Filter.recurse : Filter := .Recurse

/-- Modelled from the spec, section 6: a formal parameter (jaq_parse::Arg,
outside the verified file): either a variable-parameter or a filter-parameter;
names carry no sigil. -/
inductive Arg
  | Var (name : String)
  | Fun (name : String)
  deriving DecidableEq, Repr

/-- The name of a variable-parameter, none for a filter-parameter. -/
def Arg.get_var : Arg → Option String
  | .Var n => some n
  | .Fun _ => none

/-- The parameter's name, without sigil, for either kind. -/
def Arg.get_name : Arg → String
  | .Var n => n
  | .Fun n => n

/-- A parsed definition (jaq_parse::Def, outside the verified file; shape per
the spec: name, parameter list, nested definitions, body). -/
inductive Def
  | mk (name : String) (args : List Arg) (defs : List Def) (body : Expr × Span)

/-- Digit characters to the natural number they denote. -/
def digitsToNat (l : List Char) : Nat :=
  l.foldl (fun n c => n * 10 + (c.toNat - ('0').toNat)) 0

/-- Strip one leading sign character; returns (isNegative, rest). -/
def stripSign : List Char → Bool × List Char
  | '+' :: r => (false, r)
  | '-' :: r => (true, r)
  | l => (false, l)

/-- Modelled from the spec: Rust str::parse for the machine-size signed
integer (outside the verified file), with the machine word modelled as 64
bits: an optional sign followed by one or more digits, failing on any other
character and on overflow. -/
def parseIsize (s : String) : Option Int :=
  let p := stripSign s.data
  if p.2 ≠ [] ∧ p.2.all Char.isDigit then
    let v : Int := if p.1 then -(digitsToNat p.2 : Int) else (digitsToNat p.2 : Int)
    if -(2 ^ 63) ≤ v ∧ v ≤ 2 ^ 63 - 1 then some v else none
  else none

/-- Modelled from the spec: Rust str::parse for 64-bit floats (outside the
verified file): an optional sign, then inf / infinity / nan
(case-insensitive) or a decimal number, digits with an optional point and
fraction, or a point and fraction, with at least one mantissa digit, followed
by an optional exponent that must have at least one digit.  The finite result
is the exact decimal rational. -/
def parseF64 (s : String) : Option F64 :=
  let p := stripSign s.data
  let low := p.2.map Char.toLower
  if low = ['i', 'n', 'f'] ∨ low = ['i', 'n', 'f', 'i', 'n', 'i', 't', 'y'] then
    some (.inf p.1)
  else if low = ['n', 'a', 'n'] then
    some .nan
  else
    let m1 := p.2.span Char.isDigit
    let m2 : List Char × List Char :=
      match m1.2 with
      | '.' :: rest => rest.span Char.isDigit
      | _ => ([], m1.2)
    if m1.1 = [] ∧ m2.1 = [] then none
    else
      let mant : ℚ := (digitsToNat (m1.1 ++ m2.1) : ℚ) / (10 : ℚ) ^ m2.1.length
      let mant : ℚ := if p.1 then -mant else mant
      match m2.2 with
      | [] => some (.finite mant)
      | e :: rest =>
        if e = 'e' ∨ e = 'E' then
          let ep := stripSign rest
          let eq := ep.2.span Char.isDigit
          if eq.1 = [] ∨ eq.2 ≠ [] then none
          else
            some (.finite (if ep.1 then mant / (10 : ℚ) ^ digitsToNat eq.1
                           else mant * (10 : ℚ) ^ digitsToNat eq.1))
        else none

mutual

/-- Modelled from the spec, section 4.3: the substitution operator on IR
(crate::filter::Filter::subst, outside the verified file).  It rewrites Var
leaves with fv, replaces Arg leaves by fa, whose unguarded list indexing in
the source can panic, modelled by `none`, increments the binder depth vs
under each binding node (a binding Pipe, and a Fold's update), and recurses
homomorphically everywhere else. -/
def Filter.subst : Filter → Nat → (Nat → Nat → Nat) → (Nat → Nat → Option Filter) → Option Filter
  | .Id, _, _, _ => some .Id
  | .Int n, _, _, _ => some (.Int n)
  | .Float f, _, _, _ => some (.Float f)
  | .Str s, _, _, _ => some (.Str s)
  | .Array none, _, _, _ => some (.Array none)
  | .Array (some g), vs, fv, fa => do some (.Array (some (← g.subst vs fv fa)))
  | .Object kvs, vs, fv, fa => do some (.Object (← substKvs kvs vs fv fa))
  | .Neg f, vs, fv, fa => do some (.Neg (← f.subst vs fv fa))
  | .Try f, vs, fv, fa => do some (.Try (← f.subst vs fv fa))
  | .Pipe l b r, vs, fv, fa => do
    some (.Pipe (← l.subst vs fv fa) b (← r.subst (if b then vs + 1 else vs) fv fa))
  | .Comma l r, vs, fv, fa => do some (.Comma (← l.subst vs fv fa) (← r.subst vs fv fa))
  | .Alt l r, vs, fv, fa => do some (.Alt (← l.subst vs fv fa) (← r.subst vs fv fa))
  | .Logic l b r, vs, fv, fa => do some (.Logic (← l.subst vs fv fa) b (← r.subst vs fv fa))
  | .Math l op r, vs, fv, fa => do some (.Math (← l.subst vs fv fa) op (← r.subst vs fv fa))
  | .Ord l op r, vs, fv, fa => do some (.Ord (← l.subst vs fv fa) op (← r.subst vs fv fa))
  | .Assign l r, vs, fv, fa => do some (.Assign (← l.subst vs fv fa) (← r.subst vs fv fa))
  | .Update l r, vs, fv, fa => do some (.Update (← l.subst vs fv fa) (← r.subst vs fv fa))
  | .UpdateMath l op r, vs, fv, fa => do
    some (.UpdateMath (← l.subst vs fv fa) op (← r.subst vs fv fa))
  | .Ite i t e, vs, fv, fa => do
    some (.Ite (← i.subst vs fv fa) (← t.subst vs fv fa) (← e.subst vs fv fa))
  | .Fold ty xs init f, vs, fv, fa => do
    some (.Fold ty (← xs.subst vs fv fa) (← init.subst vs fv fa) (← f.subst (vs + 1) fv fa))
  | .Path f parts, vs, fv, fa => do
    some (.Path (← f.subst vs fv fa) (← substParts parts vs fv fa))
  | .Var v, vs, fv, _ => some (.Var (fv vs v))
  | .Arg a, vs, _, fa => fa vs a
  | .Call skip id, _, _, _ => some (.Call skip id)
  | .SkipCtx n f, vs, fv, fa => do some (.SkipCtx n (← f.subst vs fv fa))
  | .Recurse, _, _, _ => some .Recurse

/-- Substitution on the entry list of an Object IR node. -/
def substKvs : List (Filter × Filter) → Nat → (Nat → Nat → Nat) → (Nat → Nat → Option Filter) →
    Option (List (Filter × Filter))
  | [], _, _, _ => some []
  | (k, v) :: rest, vs, fv, fa => do
    some ((← k.subst vs fv fa, ← v.subst vs fv fa) :: (← substKvs rest vs fv fa))

/-- Substitution on the part list of a Path IR node. -/
def substParts : List (Part Filter × PathOpt) → Nat → (Nat → Nat → Nat) →
    (Nat → Nat → Option Filter) → Option (List (Part Filter × PathOpt))
  | [], _, _, _ => some []
  | (.Index i, opt) :: rest, vs, fv, fa => do
    some ((.Index (← i.subst vs fv fa), opt) :: (← substParts rest vs fv fa))
  | (.Range lo hi, opt) :: rest, vs, fv, fa => do
    some ((.Range (← substOpt lo vs fv fa) (← substOpt hi vs fv fa), opt)
          :: (← substParts rest vs fv fa))

/-- Substitution on an optional IR subtree (array bodies, range endpoints). -/
def substOpt : Option Filter → Nat → (Nat → Nat → Nat) → (Nat → Nat → Option Filter) →
    Option (Option Filter)
  | none, _, _, _ => some none
  | some f, vs, fv, fa => do some (some (← f.subst vs fv fa))

end

/-- A scope frame (struct Parent, unparse.rs lines 10-15): the definition's
name, its parameter list, its reserved table slot, and the map from
(name, arity) to the table id of each already-closed child definition,
modelled as a lookup function exactly supporting the get and insert
operations the source performs on the BTreeMap. -/
structure Parent where
  name : String
  args : List Arg
  id : Nat
  children : String → Nat → Option Nat

/-- Parent::vars (unparse.rs 18-20): the names of the frame's
variable-parameters, in source order. -/
def Parent.vars (p : Parent) : List String :=
  p.args.filterMap Arg.get_var

/-- The definition-compiler state (struct Ctx, unparse.rs 23-26).  The scope
stack is kept innermost-first (list head = top of the source's Vec). -/
structure Ctx where
  tree : List Parent
  defs : List Filter

/-- Ctx::vars (unparse.rs 29-31): all variable-parameter names in scope,
outer-to-inner. -/
def Ctx.vars (c : Ctx) : List String :=
  (c.tree.reverse.map Parent.vars).flatten

/-- The frame-scanning loop of Ctx::filter's Call branch (unparse.rs 79-117).
Frames are scanned innermost-first; acc is the shadowing `vars` counter that
starts at the number of local variables; targs is the translation of the call
arguments together with the diagnostics it produces.  The source translates
the arguments lazily at the first matching frame; translation is pure, so the
pre-computed value, used only there, gives the same result.  A missing table
slot or an out-of-range argument index panics in the source: `none`. -/
def callLoop (defs : List Filter) (name : String) (arity : Nat) (sp : Span)
    (targs : Option (List Filter × List Error)) (errs : List Error) :
    List Parent → Nat → Option (Filter × List Error)
  | [], _ => some (.Id, errs ++ [⟨sp, "could not find function"⟩])
  | t :: rest, acc =>
    match t.children name arity with
    | some id => do
      let (args, errs) ← targs
      let fv := fun vs v => if v < vs then v else v + acc
      let fa := fun vs a => args[a]?.bind fun arg =>
        arg.subst 0 (fun _ v => v + vs) (fun _ a => some (.Arg a))
      let body ← defs[id]?
      let f ← body.subst acc fv fa
      some (f, errs)
    | none =>
      if arity ≠ 0 then callLoop defs name arity sp targs errs rest acc
      else
        match t.args.findIdx? (fun a => a.get_name == name) with
        | some pos => some (.Arg pos, errs)
        | none =>
          if t.name = name ∧ t.args = [] then some (.Call 0 t.id, errs)
          else callLoop defs name arity sp targs errs rest (acc + t.vars.length)

/-- Ctx::close (unparse.rs 33-56): pop the innermost frame, wrap the body
with one variable-binder per variable-parameter index, reverse source order,
store the result in the frame's reserved slot, and register (name, arity) to
id in the parent frame's children.  The source unwraps the popped frame and
the parent, panicking when either is missing: `none`. -/
def Ctx.close (c : Ctx) (filter : Filter) : Option Ctx :=
  match c.tree with
  | [] => none
  | node :: rest =>
    let varsIdxs := (node.args.enum.reverse).filterMap fun p => (p.2.get_var).map fun _ => p.1
    let filter := varsIdxs.foldl (fun f idx => .Pipe (.Arg idx) true f) filter
    let defs := c.defs.set node.id filter
    match rest with
    | [] => none
    | parent :: rest' =>
      let newChildren := fun n a =>
        if n = node.name ∧ a = node.args.length then some node.id
        else parent.children n a
      some ⟨{ parent with children := newChildren } :: rest', defs⟩

/-- Modelled from the spec: Path::from on a single part (jaq path crate,
outside the verified file): a one-part path whose segment is not optional. -/
def pathFrom (p : Part Filter) : List (Part Filter × PathOpt) :=
  [(p, .Essential)]

mutual

/-- Ctx::filter (unparse.rs 72-224): the expression translator of the
definition compiler.  vars is the list of pending local binders, errs the
diagnostics accumulated so far; a panic inside argument substitution is
modelled by `none`. -/
def Ctx.filter (c : Ctx) : Expr × Span → List String → List Error → Option (Filter × List Error)
  | (.Call name args, sp), vars, errs =>
    callLoop c.defs name args.length sp (Ctx.filterList c args vars errs) errs c.tree vars.length
  | (.Var v, sp), vars, errs =>
    match ((c.vars ++ vars).reverse).findIdx? (· == v) with
    | none => some (.Var 0, errs ++ [⟨sp, "undefined variable"⟩])
    | some k => some (.Var k, errs)
  | (.Binary l (.Pipe none) r, _), vars, errs => do
    let (fl, errs) ← c.filter l vars errs
    let (fr, errs) ← c.filter r vars errs
    some (.Pipe fl false fr, errs)
  | (.Binary l (.Pipe (some x)) r, _), vars, errs => do
    let (fl, errs) ← c.filter l vars errs
    let (fr, errs) ← c.filter r (vars ++ [x]) errs
    some (.Pipe fl true fr, errs)
  | (.Fold typ xs x init f, _), vars, errs => do
    let (fxs, errs) ← c.filter xs vars errs
    let (finit, errs) ← c.filter init vars errs
    let (ff, errs) ← c.filter f (vars ++ [x]) errs
    some (.Fold typ fxs finit ff, errs)
  | (.Id, _), _, errs => some (.Id, errs)
  | (.Num n, sp), _, errs =>
    if n.data.any (fun ch => ch == '.' || ch == 'e' || ch == 'E') then
      match parseF64 n with
      | some f => some (.Float f, errs)
      | none =>
        some (.Float (.finite 0), errs ++ [⟨sp, "cannot interpret as floating-point number"⟩])
    else
      match parseIsize n with
      | some i => some (.Int i, errs)
      | none => some (.Int 0, errs ++ [⟨sp, "cannot interpret as machine-size integer"⟩])
  | (.Str s, _), _, errs => some (.Str s, errs)
  | (.Array none, _), _, errs => some (.Array none, errs)
  | (.Array (some a), _), vars, errs => do
    let (fa, errs) ← c.filter a vars errs
    some (.Array (some fa), errs)
  | (.Object o, _), vars, errs => do
    let (kvs, errs) ← Ctx.filterKvs c o vars errs
    some (.Object kvs, errs)
  | (.Try f, _), vars, errs => do
    let (ff, errs) ← c.filter f vars errs
    some (.Try ff, errs)
  | (.Neg f, _), vars, errs => do
    let (ff, errs) ← c.filter f vars errs
    some (.Neg ff, errs)
  | (.Recurse, _), _, errs => some (Filter.recurse, errs)
  | (.Binary l .Comma r, _), vars, errs => do
    let (fl, errs) ← c.filter l vars errs
    let (fr, errs) ← c.filter r vars errs
    some (.Comma fl fr, errs)
  | (.Binary l .Alt r, _), vars, errs => do
    let (fl, errs) ← c.filter l vars errs
    let (fr, errs) ← c.filter r vars errs
    some (.Alt fl fr, errs)
  | (.Binary l .Or r, _), vars, errs => do
    let (fl, errs) ← c.filter l vars errs
    let (fr, errs) ← c.filter r vars errs
    some (.Logic fl true fr, errs)
  | (.Binary l .And r, _), vars, errs => do
    let (fl, errs) ← c.filter l vars errs
    let (fr, errs) ← c.filter r vars errs
    some (.Logic fl false fr, errs)
  | (.Binary l (.Math op) r, _), vars, errs => do
    let (fl, errs) ← c.filter l vars errs
    let (fr, errs) ← c.filter r vars errs
    some (.Math fl op fr, errs)
  | (.Binary l (.Ord op) r, _), vars, errs => do
    let (fl, errs) ← c.filter l vars errs
    let (fr, errs) ← c.filter r vars errs
    some (.Ord fl op fr, errs)
  | (.Binary l (.Assign op) r, _), vars, errs => do
    let (fl, errs) ← c.filter l vars errs
    let (fr, errs) ← c.filter r vars errs
    some (match op with
          | .Assign => .Assign fl fr
          | .Update => .Update fl fr
          | .UpdateWith mop => .UpdateMath fl mop fr,
          errs)
  | (.Ite ifThens else_, _), vars, errs => do
    let (fe, errs) ← c.filter else_ vars errs
    Ctx.filterIte c ifThens fe vars errs
  | (.Path f path, _), vars, errs => do
    let (ff, errs) ← c.filter f vars errs
    let (parts, errs) ← Ctx.filterParts c path vars errs
    some (.Path ff parts, errs)

/-- Translation of a list of call arguments, left to right. -/
def Ctx.filterList (c : Ctx) : List (Expr × Span) → List String → List Error →
    Option (List Filter × List Error)
  | [], _, errs => some ([], errs)
  | a :: rest, vars, errs => do
    let (f, errs) ← c.filter a vars errs
    let (fs, errs) ← Ctx.filterList c rest vars errs
    some (f :: fs, errs)

/-- Translation of object entries (unparse.rs 167-183), left to right; a
string key with no value synthesizes Path(Id, [Index(Str k)]). -/
def Ctx.filterKvs (c : Ctx) : List KeyVal → List String → List Error →
    Option (List (Filter × Filter) × List Error)
  | [], _, errs => some ([], errs)
  | .Filter k v :: rest, vars, errs => do
    let (fk, errs) ← c.filter k vars errs
    let (fv, errs) ← c.filter v vars errs
    let (kvs, errs) ← Ctx.filterKvs c rest vars errs
    some ((fk, fv) :: kvs, errs)
  | .Str k none :: rest, vars, errs => do
    let (kvs, errs) ← Ctx.filterKvs c rest vars errs
    some ((Filter.Str k, Filter.Path .Id (pathFrom (.Index (Filter.Str k)))) :: kvs, errs)
  | .Str k (some v) :: rest, vars, errs => do
    let (fv, errs) ← c.filter v vars errs
    let (kvs, errs) ← Ctx.filterKvs c rest vars errs
    some ((Filter.Str k, fv) :: kvs, errs)

/-- Translation of path parts (unparse.rs 210-222), left to right. -/
def Ctx.filterParts (c : Ctx) : List (Part (Expr × Span) × PathOpt) → List String → List Error →
    Option (List (Part Filter × PathOpt) × List Error)
  | [], _, errs => some ([], errs)
  | (.Index i, opt) :: rest, vars, errs => do
    let (fi, errs) ← c.filter i vars errs
    let (ps, errs) ← Ctx.filterParts c rest vars errs
    some ((.Index fi, opt) :: ps, errs)
  | (.Range lo hi, opt) :: rest, vars, errs => do
    let (flo, errs) ← Ctx.filterOptE c lo vars errs
    let (fhi, errs) ← Ctx.filterOptE c hi vars errs
    let (ps, errs) ← Ctx.filterParts c rest vars errs
    some ((.Range flo fhi, opt) :: ps, errs)

/-- Translation of an optional subexpression (range endpoints). -/
def Ctx.filterOptE (c : Ctx) : Option (Expr × Span) → List String → List Error →
    Option (Option Filter × List Error)
  | none, _, errs => some (none, errs)
  | some e, vars, errs => do
    let (f, errs) ← c.filter e vars errs
    some (some f, errs)

/-- The right fold of the conditional branch (unparse.rs 204-209): the source
iterates the reversed (if, then) pairs with the translated else as
accumulator, which this structural right fold reproduces exactly, including
the order in which diagnostics are appended. -/
def Ctx.filterIte (c : Ctx) : List ((Expr × Span) × (Expr × Span)) → Filter → List String →
    List Error → Option (Filter × List Error)
  | [], acc, _, errs => some (acc, errs)
  | (i, t) :: rest, acc, vars, errs => do
    let (acc2, errs) ← Ctx.filterIte c rest acc vars errs
    let (fi, errs) ← c.filter i vars errs
    let (ft, errs) ← c.filter t vars errs
    some (.Ite fi ft acc2, errs)

end

mutual

/-- Ctx::def (unparse.rs 58-70): reserve the next table slot with the default
placeholder, push a frame for the definition, compile the nested definitions
depth-first in source order, translate the body with no local variables, and
close. -/
def Ctx.defn (c : Ctx) : Def → List Error → Option (Ctx × List Error)
  | .mk name args ds body, errs =>
    let node : Parent := ⟨name, args, c.defs.length, fun _ _ => none⟩
    let c1 : Ctx := ⟨node :: c.tree, c.defs ++ [Filter.default]⟩
    do
      let (c2, errs) ← Ctx.defnList c1 ds errs
      let (f, errs) ← c2.filter body [] errs
      let c3 ← c2.close f
      some (c3, errs)

/-- Compilation of a list of definitions, in source order. -/
def Ctx.defnList : Ctx → List Def → List Error → Option (Ctx × List Error)
  | c, [], errs => some (c, errs)
  | c, d :: rest, errs => do
    let (c1, errs) ← Ctx.defn c d errs
    Ctx.defnList c1 rest errs

end

/-- Modelled from the spec, sections 2 and 4.4: the module-level driver of the
definition compiler, which lives outside the verified file.  It starts from a
root frame with no name and no parameters, compiles each top-level definition
into the table, then translates the module body with no local variables,
returning the filter table, the top-level filter, and the diagnostics. -/
def compileModule (ds : List Def) (body : Expr × Span) :
    Option (List Filter × Filter × List Error) := do
  let root : Parent := ⟨"", [], 0, fun _ _ => none⟩
  let (c, errs) ← Ctx.defnList ⟨[root], []⟩ ds []
  let (top, errs) ← c.filter body [] errs
  some (c.defs, top, errs)

/-- Rust Iterator::rposition on a list of names: the index, counted from the
left, of the last element equal to the name. -/
def rposition (l : List String) (name : String) : Option Nat :=
  (l.reverse.findIdx? (· == name)).map fun i => l.length - 1 - i

mutual

/-- The expression-compiler translator (pub fn filter, unparse.rs 252-379):
fns is the built-in lookup, args the externally supplied argument names, vars
the pending local variables.  The unguarded `args[a]` indexing of the call
closure panics on an out-of-range argument index, modelled by `none`. -/
def filter (fns : String → Nat → Option Filter) (args : List String) :
    Expr × Span → List String → List Error → Option (Filter × List Error)
  | (.Id, _), _, errs => some (.Id, errs)
  | (.Num n, sp), _, errs =>
    if n.data.any (fun ch => ch == '.' || ch == 'e' || ch == 'E') then
      match parseF64 n with
      | some f => some (.Float f, errs)
      | none =>
        some (.Float (.finite 0), errs ++ [⟨sp, "cannot interpret as floating-point number"⟩])
    else
      match parseIsize n with
      | some i => some (.Int i, errs)
      | none => some (.Int 0, errs ++ [⟨sp, "cannot interpret as machine-size integer"⟩])
  | (.Str s, _), _, errs => some (.Str s, errs)
  | (.Var v, sp), vars, errs =>
    match (vars.reverse).findIdx? (· == v) with
    | none => some (.Var 0, errs ++ [⟨sp, "undefined variable"⟩])
    | some k => some (.Var k, errs)
  | (.Array none, _), _, errs => some (.Array none, errs)
  | (.Array (some a), _), vars, errs => do
    let (fa, errs) ← filter fns args a vars errs
    some (.Array (some fa), errs)
  | (.Object o, _), vars, errs => do
    let (kvs, errs) ← filterKvsE fns args o vars errs
    some (.Object kvs, errs)
  | (.Call name cargs, sp), vars, errs =>
    match rposition args name, cargs with
    | some pos, [] =>
      some (if vars.isEmpty then .Arg pos else .SkipCtx vars.length (.Arg pos), errs)
    | _, cargs2 =>
      let start : Filter × List Error :=
        match fns name cargs2.length with
        | some f => (f, errs)
        | none => (Filter.Id, errs ++ [⟨sp, "could not find function"⟩])
      do
        let (targs, errs2) ← filterListE fns args cargs2 vars start.2
        let r ← start.1.subst 0 (fun _ v => v) (fun _ a => targs[a]?)
        some (r, errs2)
  | (.Try f, _), vars, errs => do
    let (ff, errs) ← filter fns args f vars errs
    some (.Try ff, errs)
  | (.Neg f, _), vars, errs => do
    let (ff, errs) ← filter fns args f vars errs
    some (.Neg ff, errs)
  | (.Recurse, _), _, errs => some (Filter.recurse, errs)
  | (.Binary l (.Pipe none) r, _), vars, errs => do
    let (fl, errs) ← filter fns args l vars errs
    let (fr, errs) ← filter fns args r vars errs
    some (.Pipe fl false fr, errs)
  | (.Binary l (.Pipe (some x)) r, _), vars, errs => do
    let (fl, errs) ← filter fns args l vars errs
    let (fr, errs) ← filter fns args r (vars ++ [x]) errs
    some (.Pipe fl true fr, errs)
  | (.Fold typ xs x init f, _), vars, errs => do
    let (fxs, errs) ← filter fns args xs vars errs
    let (finit, errs) ← filter fns args init vars errs
    let (ff, errs) ← filter fns args f (vars ++ [x]) errs
    some (.Fold typ fxs finit ff, errs)
  | (.Binary l .Comma r, _), vars, errs => do
    let (fl, errs) ← filter fns args l vars errs
    let (fr, errs) ← filter fns args r vars errs
    some (.Comma fl fr, errs)
  | (.Binary l .Alt r, _), vars, errs => do
    let (fl, errs) ← filter fns args l vars errs
    let (fr, errs) ← filter fns args r vars errs
    some (.Alt fl fr, errs)
  | (.Binary l .Or r, _), vars, errs => do
    let (fl, errs) ← filter fns args l vars errs
    let (fr, errs) ← filter fns args r vars errs
    some (.Logic fl true fr, errs)
  | (.Binary l .And r, _), vars, errs => do
    let (fl, errs) ← filter fns args l vars errs
    let (fr, errs) ← filter fns args r vars errs
    some (.Logic fl false fr, errs)
  | (.Binary l (.Math op) r, _), vars, errs => do
    let (fl, errs) ← filter fns args l vars errs
    let (fr, errs) ← filter fns args r vars errs
    some (.Math fl op fr, errs)
  | (.Binary l (.Ord op) r, _), vars, errs => do
    let (fl, errs) ← filter fns args l vars errs
    let (fr, errs) ← filter fns args r vars errs
    some (.Ord fl op fr, errs)
  | (.Binary l (.Assign op) r, _), vars, errs => do
    let (fl, errs) ← filter fns args l vars errs
    let (fr, errs) ← filter fns args r vars errs
    some (match op with
          | .Assign => .Assign fl fr
          | .Update => .Update fl fr
          | .UpdateWith mop => .UpdateMath fl mop fr,
          errs)
  | (.Ite ifThens else_, _), vars, errs => do
    let (fe, errs) ← filter fns args else_ vars errs
    filterIteE fns args ifThens fe vars errs
  | (.Path f path, _), vars, errs => do
    let (ff, errs) ← filter fns args f vars errs
    let (parts, errs) ← filterPartsE fns args path vars errs
    some (.Path ff parts, errs)
  termination_by b2 v2 e2 => sizeOf b2

/-- Expression-compiler translation of a list of call arguments. -/
def filterListE (fns : String → Nat → Option Filter) (args : List String) :
    List (Expr × Span) → List String → List Error → Option (List Filter × List Error)
  | [], _, errs => some ([], errs)
  | a :: rest, vars, errs => do
    let (f, errs) ← filter fns args a vars errs
    let (fs, errs) ← filterListE fns args rest vars errs
    some (f :: fs, errs)
  termination_by l2 v2 e2 => sizeOf l2

/-- Expression-compiler translation of object entries (unparse.rs 300-316). -/
def filterKvsE (fns : String → Nat → Option Filter) (args : List String) :
    List KeyVal → List String → List Error → Option (List (Filter × Filter) × List Error)
  | [], _, errs => some ([], errs)
  | .Filter k v :: rest, vars, errs => do
    let (fk, errs) ← filter fns args k vars errs
    let (fv, errs) ← filter fns args v vars errs
    let (kvs, errs) ← filterKvsE fns args rest vars errs
    some ((fk, fv) :: kvs, errs)
  | .Str k none :: rest, vars, errs => do
    let (kvs, errs) ← filterKvsE fns args rest vars errs
    some ((Filter.Str k, Filter.Path .Id (pathFrom (.Index (Filter.Str k)))) :: kvs, errs)
  | .Str k (some v) :: rest, vars, errs => do
    let (fv, errs) ← filter fns args v vars errs
    let (kvs, errs) ← filterKvsE fns args rest vars errs
    some ((Filter.Str k, fv) :: kvs, errs)
  termination_by l2 v2 e2 => sizeOf l2

/-- Expression-compiler translation of path parts (unparse.rs 366-378). -/
def filterPartsE (fns : String → Nat → Option Filter) (args : List String) :
    List (Part (Expr × Span) × PathOpt) → List String → List Error →
    Option (List (Part Filter × PathOpt) × List Error)
  | [], _, errs => some ([], errs)
  | (.Index i, opt) :: rest, vars, errs => do
    let (fi, errs) ← filter fns args i vars errs
    let (ps, errs) ← filterPartsE fns args rest vars errs
    some ((.Index fi, opt) :: ps, errs)
  | (.Range lo hi, opt) :: rest, vars, errs => do
    let (flo, errs) ← filterOptE fns args lo vars errs
    let (fhi, errs) ← filterOptE fns args hi vars errs
    let (ps, errs) ← filterPartsE fns args rest vars errs
    some ((.Range flo fhi, opt) :: ps, errs)
  termination_by l2 v2 e2 => sizeOf l2

/-- Expression-compiler translation of an optional subexpression. -/
def filterOptE (fns : String → Nat → Option Filter) (args : List String) :
    Option (Expr × Span) → List String → List Error → Option (Option Filter × List Error)
  | none, _, errs => some (none, errs)
  | some e, vars, errs => do
    let (f, errs) ← filter fns args e vars errs
    some (some f, errs)
  termination_by o2 v2 e2 => sizeOf o2

/-- Expression-compiler right fold of the conditional branch (unparse.rs
360-365), reproducing the source's reversed iteration exactly. -/
def filterIteE (fns : String → Nat → Option Filter) (args : List String) :
    List ((Expr × Span) × (Expr × Span)) → Filter → List String → List Error →
    Option (Filter × List Error)
  | [], acc, _, errs => some (acc, errs)
  | (i, t) :: rest, acc, vars, errs => do
    let (acc2, errs) ← filterIteE fns args rest acc vars errs
    let (fi, errs) ← filter fns args i vars errs
    let (ft, errs) ← filter fns args t vars errs
    some (.Ite fi ft acc2, errs)
  termination_by l2 a2 v2 e2 => sizeOf l2

end

/-- The expression-compiler entry point for a single definition (pub fn def,
unparse.rs 227-250): collect the variable-parameter names and indices in
source order, compile the body with the parameter names as argument names and
the variable-parameter names as pre-bound variables, then wrap with one
variable-binder per variable-parameter index in reverse source order. -/
def defn (fns : String → Nat → Option Filter) (args : List Arg) (body : Expr × Span)
    (errs : List Error) : Option (Filter × List Error) := do
  let varsNames := args.filterMap Arg.get_var
  let varsIdxs := args.enum.filterMap fun p => (p.2.get_var).map fun _ => p.1
  let (f, errs) ← filter fns (args.map Arg.get_name) body varsNames errs
  some (varsIdxs.reverse.foldl (fun f idx => .Pipe (.Arg idx) true f) f, errs)

mutual

/-- The number of def nodes of a definition, itself plus all nested. -/
def Def.count : Def → Nat
  | .mk _ _ ds _ => 1 + Def.countList ds

/-- The number of def nodes of a list of definitions. -/
def Def.countList : List Def → Nat
  | [] => 0
  | d :: rest => Def.count d + Def.countList rest

end

/-- The indices of the variable-parameters of a parameter list, in ascending
source order; with arguments f-var, g, h-var this is the list 0, 2. -/
def varIdxs (args : List Arg) : List Nat :=
  args.enum.filterMap fun p => (p.2.get_var).map fun _ => p.1

/-- The wrapping the spec describes for close and for the expression-compiler
entry point: one binding Pipe per variable-parameter index, the leftmost
variable-parameter outermost, the rightmost closest to the body. -/
def wrapVars (args : List Arg) (f : Filter) : Filter :=
  (varIdxs args).foldr (fun idx acc => .Pipe (.Arg idx) true acc) f

mutual

/-- Whether every Arg leaf of a filter has an index below n, the precondition
under which the unguarded argument lookups of the substitution succeed. -/
def Filter.argsBelow (n : Nat) : Filter → Bool
  | .Id => true
  | .Int _ => true
  | .Float _ => true
  | .Str _ => true
  | .Array none => true
  | .Array (some g) => g.argsBelow n
  | .Object kvs => argsBelowKvs n kvs
  | .Neg f => f.argsBelow n
  | .Try f => f.argsBelow n
  | .Pipe l _ r => l.argsBelow n && r.argsBelow n
  | .Comma l r => l.argsBelow n && r.argsBelow n
  | .Alt l r => l.argsBelow n && r.argsBelow n
  | .Logic l _ r => l.argsBelow n && r.argsBelow n
  | .Math l _ r => l.argsBelow n && r.argsBelow n
  | .Ord l _ r => l.argsBelow n && r.argsBelow n
  | .Assign l r => l.argsBelow n && r.argsBelow n
  | .Update l r => l.argsBelow n && r.argsBelow n
  | .UpdateMath l _ r => l.argsBelow n && r.argsBelow n
  | .Ite i t e => i.argsBelow n && t.argsBelow n && e.argsBelow n
  | .Fold _ xs init f => xs.argsBelow n && init.argsBelow n && f.argsBelow n
  | .Path f parts => f.argsBelow n && argsBelowParts n parts
  | .Var _ => true
  | .Arg a => a < n
  | .Call _ _ => true
  | .SkipCtx _ f => f.argsBelow n
  | .Recurse => true

/-- argsBelow on object entries. -/
def argsBelowKvs (n : Nat) : List (Filter × Filter) → Bool
  | [] => true
  | (k, v) :: rest => k.argsBelow n && v.argsBelow n && argsBelowKvs n rest

/-- argsBelow on path parts. -/
def argsBelowParts (n : Nat) : List (Part Filter × PathOpt) → Bool
  | [] => true
  | (.Index i, _) :: rest => i.argsBelow n && argsBelowParts n rest
  | (.Range lo hi, _) :: rest =>
    argsBelowOpt n lo && argsBelowOpt n hi && argsBelowParts n rest

/-- argsBelow on an optional subtree. -/
def argsBelowOpt (n : Nat) : Option Filter → Bool
  | none => true
  | some f => f.argsBelow n

end

/-- A fixed span for the concrete compilation scenarios. -/
def sp0 : Span := (0, 0)

/-- The module of scenario 5 of the spec: def f with variable-parameter x and
body the variable x, that is, `def f(x-var): x-var; f(1)`. -/
def c3Module : List Def := [.mk "f" [.Var "x"] [] (.Var "x", sp0)]

/-- The failing input for the per-frame offset accumulation: a definition p
with variable-parameter u containing a child c, of one filter-parameter, whose
body is the free variable u, and a later sibling f, of one variable-parameter
w, whose body calls the cousin c with one argument.  The frame of f is scanned
before the match at p, so its variable-parameter w should contribute one to
the offset of the free u. -/
def c1Module : List Def :=
  [.mk "p" [.Var "u"]
    [.mk "c" [.Fun "g"] [] (.Var "u", sp0),
     .mk "f" [.Var "w"] [] (.Call "c" [(.Id, sp0)], sp0)]
    (.Id, sp0)]

/-- The scope state used to witness the close wrapping: a frame named g with
a variable-parameter a and a filter-parameter b over a root frame, one
reserved slot. -/
def nodeW : Parent := ⟨"g", [Arg.Var "a", Arg.Fun "b"], 0, fun _ _ => none⟩

/-- The root frame under nodeW. -/
def parentW : Parent := ⟨"", [], 0, fun _ _ => none⟩

/-- The context holding nodeW over parentW with one reserved slot. -/
def cW : Ctx := ⟨[nodeW, parentW], [Filter.default]⟩

/-- The frame used to witness sibling registration: name s, one
filter-parameter, slot 9. -/
def nodeW8 : Parent := ⟨"s", [Arg.Fun "q"], 9, fun _ _ => none⟩

/-- A parent frame that already has children s of arity 1 at slot 5 and s of
arity 2 at slot 6. -/
def parentW8 : Parent :=
  ⟨"", [], 0, fun n a =>
    if n = "s" ∧ a = 1 then some 5 else if n = "s" ∧ a = 2 then some 6 else none⟩

/-- The context holding nodeW8 over parentW8, with ten reserved slots. -/
def cW8 : Ctx := ⟨[nodeW8, parentW8], List.replicate 10 Filter.default⟩

/-- C3: compiling the module `def f($x): $x; f(1)` produces the filter table
whose single slot, the slot of f, holds Pipe(Arg 0, true, Var 0), and a
top-level filter Pipe(Int 1, true, Var 0), the cousin f inlined with the
translated argument Int 1 substituted for Arg 0, with no diagnostics. -/
theorem c3_table_and_inline_eval :
    compileModule c3Module (.Call "f" [(.Num "1", sp0)], sp0) =
      some ([.Pipe (.Arg 0) true (.Var 0)], .Pipe (.Int 1) true (.Var 0), []) := by
  simp [compileModule, Ctx.defnList, Ctx.defn, Ctx.close, Ctx.filter, Ctx.filterList,
    callLoop, Filter.subst, Ctx.vars, Parent.vars, Arg.get_var, Arg.get_name,
    Filter.default, parseIsize, digitsToNat, stripSign, List.enum, sp0, c3Module]

/-- C1: evaluation of the definition compiler at the failing input c1Module.
The slot compiled for f holds Pipe(Arg 0, true, Var 0): the free variable u
of the cousin body c received the offset 0, the local-variable count alone,
although the frame of f, scanned before the matching frame p, contributes one
variable-parameter (w), because the scan of a call with arguments skips the
per-frame accumulation; the claimed offset, 0 locals plus 1 for the scanned
frame, would give Var 1, that is, a slot Pipe(Arg 0, true, Var 1). -/
theorem c1_cousin_offset_skips_frames_eval :
    compileModule c1Module (.Id, sp0) =
      some ([.Pipe (.Arg 0) true .Id, .Var 0, .Pipe (.Arg 0) true (.Var 0)], .Id, []) := by
  simp [compileModule, Ctx.defnList, Ctx.defn, Ctx.close, Ctx.filter, Ctx.filterList,
    callLoop, Filter.subst, Ctx.vars, Parent.vars, Arg.get_var, Arg.get_name,
    Filter.default, List.enum, sp0, c1Module]

/-- The descending fold the source uses for wrapping equals the spec's
ascending right fold. -/
theorem wrap_foldl_reverse (args : List Arg) (f : Filter) :
    ((args.enum.reverse).filterMap fun p => (p.2.get_var).map fun _ => p.1).foldl
      (fun f idx => .Pipe (.Arg idx) true f) f = wrapVars args f := by
  rw [List.filterMap_reverse, List.foldl_reverse]
  rfl

/-- C2: the filter stored by close in the reserved slot of the popped frame
is the translated body wrapped with one Pipe(Arg i, binds, body) per
variable-parameter index i, in reverse source order, so the leftmost
variable-parameter is outermost and the rightmost is closest to the body,
filter-parameters contributing no wrapper; and the expression-compiler entry
point performs the same wrapping on its final filter. -/
theorem c2_close_and_defn_wrap_variable_params :
    (∀ (c : Ctx) (node parent : Parent) (rest : List Parent) (f : Filter) (c' : Ctx),
      c.tree = node :: parent :: rest →
      node.id < c.defs.length →
      Ctx.close c f = some c' →
      c'.defs[node.id]? = some (wrapVars node.args f)) ∧
    (∀ (fns : String → Nat → Option Filter) (args : List Arg) (body : Expr × Span)
        (errs : List Error) (f0 : Filter) (errs0 : List Error),
      filter fns (args.map Arg.get_name) body (args.filterMap Arg.get_var) errs
        = some (f0, errs0) →
      defn fns args body errs = some (wrapVars args f0, errs0)) := by
  constructor
  · intro c node parent rest f c' htree hlt hclose
    rw [Ctx.close, htree] at hclose
    simp only [Option.some.injEq] at hclose
    subst hclose
    simp only [wrap_foldl_reverse]
    simp [List.getElem?_set, hlt]
  · intro fns args body errs f0 errs0 hfil
    rw [defn, hfil]
    simp [List.foldl_reverse, wrapVars, varIdxs]

/-- Witness for C2: a concrete close stores the wrapped body, where the
variable-parameter a (index 0) binds and the filter-parameter b (index 1)
does not, and a concrete entry-point call wraps the same way. -/
theorem c2_witness :
    (Ctx.close cW Filter.Id).bind (fun c2 => c2.defs[0]?)
        = some (wrapVars [Arg.Var "a", Arg.Fun "b"] Filter.Id) ∧
    defn (fun _ _ => none) [Arg.Var "a"] (.Id, sp0) []
        = some (wrapVars [Arg.Var "a"] Filter.Id, []) := by
  constructor
  · obtain ⟨c2, hc2⟩ : ∃ c2, Ctx.close cW Filter.Id = some c2 := ⟨_, rfl⟩
    have h := c2_close_and_defn_wrap_variable_params.1 cW nodeW parentW [] Filter.Id c2
      rfl (by decide) hc2
    rw [hc2]
    exact h
  · exact c2_close_and_defn_wrap_variable_params.2 (fun _ _ => none) [Arg.Var "a"]
      (.Id, sp0) [] Filter.Id []
      (by simp [Arg.get_var, Arg.get_name, filter])

/-- C8: registration after close: the parent frame's children map binds the
closed definition's (name, arity) to its table id, replacing any earlier
sibling with the same name and arity, while entries of the same name with a
different arity, and entries of other names, are preserved. -/
theorem c8_sibling_overwrite :
    ∀ (c : Ctx) (node parent : Parent) (rest : List Parent) (f : Filter) (c' : Ctx),
      c.tree = node :: parent :: rest →
      Ctx.close c f = some c' →
      ∃ p', c'.tree = p' :: rest ∧
        p'.children node.name node.args.length = some node.id ∧
        (∀ k, k ≠ node.args.length → p'.children node.name k = parent.children node.name k) ∧
        (∀ m k, m ≠ node.name → p'.children m k = parent.children m k) := by
  intro c node parent rest f c' htree hclose
  rw [Ctx.close, htree] at hclose
  simp only [Option.some.injEq] at hclose
  subst hclose
  refine ⟨_, rfl, ?_, ?_, ?_⟩
  · simp
  · intro k hk
    simp [hk]
  · intro m k hm
    simp [hm]

/-- Witness for C8: closing nodeW8 (name s, arity 1, id 9) over parentW8,
whose children already bind (s, 1) to 5 and (s, 2) to 6: the (s, 1) entry is
overwritten to 9 and the (s, 2) entry survives. -/
theorem c8_witness :
    (Ctx.close cW8 Filter.Id).bind
        (fun c2 => c2.tree.head?.map fun p => (p.children "s" 1, p.children "s" 2))
      = some (some 9, some 6) := by
  obtain ⟨c2, hc2⟩ : ∃ c2, Ctx.close cW8 Filter.Id = some c2 := ⟨_, rfl⟩
  obtain ⟨p', htree, h1, h2, h3⟩ :=
    c8_sibling_overwrite cW8 nodeW8 parentW8 [] Filter.Id c2 rfl hc2
  rw [hc2]
  simp only [Option.some_bind, htree, List.head?_cons, Option.map_some']
  have e1 : p'.children "s" 1 = some 9 := h1
  have e2 : p'.children "s" 2 = some 6 := by
    have h4 := h2 2 (by decide)
    simpa [nodeW8, parentW8] using h4
  rw [e1, e2]

/-- C5: a variable reference is resolved by scanning the concatenation of the
scope stack's variable-parameter names, outer-to-inner, and the local
binders, reversed, emitting Var k for the position of the first, that is,
innermost, match; when no name matches, Var 0 is emitted and exactly one
undefined-variable diagnostic is recorded at the node's span.  The expression
compiler does the same over its local binder list alone. -/
theorem c5_var_resolution :
    (∀ (c : Ctx) (v : String) (sp : Span) (vars : List String) (errs : List Error) (k : Nat),
      ((c.vars ++ vars).reverse).findIdx? (· == v) = some k →
      Ctx.filter c (.Var v, sp) vars errs = some (.Var k, errs)) ∧
    (∀ (c : Ctx) (v : String) (sp : Span) (vars : List String) (errs : List Error),
      ((c.vars ++ vars).reverse).findIdx? (· == v) = none →
      Ctx.filter c (.Var v, sp) vars errs
        = some (.Var 0, errs ++ [⟨sp, "undefined variable"⟩])) ∧
    (∀ (fns : String → Nat → Option Filter) (args : List String) (v : String) (sp : Span)
        (vars : List String) (errs : List Error) (k : Nat),
      (vars.reverse).findIdx? (· == v) = some k →
      filter fns args (.Var v, sp) vars errs = some (.Var k, errs)) ∧
    (∀ (fns : String → Nat → Option Filter) (args : List String) (v : String) (sp : Span)
        (vars : List String) (errs : List Error),
      (vars.reverse).findIdx? (· == v) = none →
      filter fns args (.Var v, sp) vars errs
        = some (.Var 0, errs ++ [⟨sp, "undefined variable"⟩])) := by
  refine ⟨?_, ?_, ?_, ?_⟩
  · intro c v sp vars errs k h
    rw [Ctx.filter, h]
  · intro c v sp vars errs h
    rw [Ctx.filter, h]
  · intro fns args v sp vars errs k h
    rw [filter, h]
  · intro fns args v sp vars errs h
    rw [filter, h]

/-- Witness for C5 at a scope with variable-parameter a, local binder b: the
local binder is innermost (Var 0), the parameter behind it (Var 1), an
unknown name yields Var 0 plus one diagnostic; same shape for the expression
compiler. -/
theorem c5_witness :
    Ctx.filter ⟨[⟨"f", [Arg.Var "a"], 0, fun _ _ => none⟩], []⟩ (.Var "a", sp0) ["b"] []
      = some (.Var 1, []) ∧
    Ctx.filter ⟨[⟨"f", [Arg.Var "a"], 0, fun _ _ => none⟩], []⟩ (.Var "z", sp0) ["b"] []
      = some (.Var 0, [⟨sp0, "undefined variable"⟩]) ∧
    filter (fun _ _ => none) [] (.Var "b", sp0) ["a", "b"] [] = some (.Var 0, []) ∧
    filter (fun _ _ => none) [] (.Var "z", sp0) ["a", "b"] []
      = some (.Var 0, [⟨sp0, "undefined variable"⟩]) := by
  refine ⟨?_, ?_, ?_, ?_⟩
  · exact c5_var_resolution.1 _ "a" sp0 ["b"] [] 1 (by decide)
  · exact c5_var_resolution.2.1 _ "z" sp0 ["b"] [] (by decide)
  · exact c5_var_resolution.2.2.1 (fun _ _ => none) [] "b" sp0 ["a", "b"] [] 0 (by decide)
  · exact c5_var_resolution.2.2.2 (fun _ _ => none) [] "z" sp0 ["a", "b"] [] (by decide)

/-- The character test of the numeric branch: the textual form contains a
point or an exponent letter. -/
def hasFloatChar (n : String) : Bool :=
  n.data.any (fun ch => ch == '.' || ch == 'e' || ch == 'E')

/-- C7: a numeric literal whose text contains a point or an exponent letter
is parsed as a 64-bit float and emitted as Float(f), any other literal is
parsed as a machine-size signed integer and emitted as Int(i); exactly when
parsing fails, a zero of the corresponding kind is emitted together with one
diagnostic at the node's span; in particular the input 1e yields Float(0.0)
plus one parse diagnostic.  Both translators behave identically. -/
theorem c7_numeric_literals :
    (∀ (c : Ctx) (n : String) (sp : Span) (vars : List String) (errs : List Error),
      (∀ f, hasFloatChar n = true → parseF64 n = some f →
        Ctx.filter c (.Num n, sp) vars errs = some (.Float f, errs)) ∧
      (hasFloatChar n = true → parseF64 n = none →
        Ctx.filter c (.Num n, sp) vars errs
          = some (.Float (.finite 0),
                  errs ++ [⟨sp, "cannot interpret as floating-point number"⟩])) ∧
      (∀ i, hasFloatChar n = false → parseIsize n = some i →
        Ctx.filter c (.Num n, sp) vars errs = some (.Int i, errs)) ∧
      (hasFloatChar n = false → parseIsize n = none →
        Ctx.filter c (.Num n, sp) vars errs
          = some (.Int 0, errs ++ [⟨sp, "cannot interpret as machine-size integer"⟩]))) ∧
    (∀ (fns : String → Nat → Option Filter) (args : List String) (n : String) (sp : Span)
        (vars : List String) (errs : List Error),
      (∀ f, hasFloatChar n = true → parseF64 n = some f →
        filter fns args (.Num n, sp) vars errs = some (.Float f, errs)) ∧
      (hasFloatChar n = true → parseF64 n = none →
        filter fns args (.Num n, sp) vars errs
          = some (.Float (.finite 0),
                  errs ++ [⟨sp, "cannot interpret as floating-point number"⟩])) ∧
      (∀ i, hasFloatChar n = false → parseIsize n = some i →
        filter fns args (.Num n, sp) vars errs = some (.Int i, errs)) ∧
      (hasFloatChar n = false → parseIsize n = none →
        filter fns args (.Num n, sp) vars errs
          = some (.Int 0, errs ++ [⟨sp, "cannot interpret as machine-size integer"⟩]))) ∧
    Ctx.filter ⟨[], []⟩ (.Num "1e", sp0) [] []
      = some (.Float (.finite 0), [⟨sp0, "cannot interpret as floating-point number"⟩]) ∧
    filter (fun _ _ => none) [] (.Num "1e", sp0) [] []
      = some (.Float (.finite 0), [⟨sp0, "cannot interpret as floating-point number"⟩]) := by
  have h1e : parseF64 "1e" = none := by decide
  have h1c : hasFloatChar "1e" = true := by decide
  refine ⟨?_, ?_, ?_, ?_⟩
  · intro c n sp vars errs
    refine ⟨?_, ?_, ?_, ?_⟩
    · intro f hc hp
      rw [Ctx.filter]
      rw [hasFloatChar] at hc
      simp [hc, hp]
    · intro hc hp
      rw [Ctx.filter]
      rw [hasFloatChar] at hc
      simp [hc, hp]
    · intro i hc hp
      rw [Ctx.filter]
      rw [hasFloatChar] at hc
      simp [hc, hp]
    · intro hc hp
      rw [Ctx.filter]
      rw [hasFloatChar] at hc
      simp [hc, hp]
  · intro fns args n sp vars errs
    refine ⟨?_, ?_, ?_, ?_⟩
    · intro f hc hp
      rw [filter]
      rw [hasFloatChar] at hc
      simp [hc, hp]
    · intro hc hp
      rw [filter]
      rw [hasFloatChar] at hc
      simp [hc, hp]
    · intro i hc hp
      rw [filter]
      rw [hasFloatChar] at hc
      simp [hc, hp]
    · intro hc hp
      rw [filter]
      rw [hasFloatChar] at hc
      simp [hc, hp]
  · rw [Ctx.filter]
    rw [hasFloatChar] at h1c
    simp [h1c, h1e]
  · rw [filter]
    rw [hasFloatChar] at h1c
    simp [h1c, h1e]

/-- Witness for C7: the successful integer case 7, and the failing integer
case of a 20-digit literal that exceeds the 64-bit range, for the definition
compiler, and the float-failure case 2e for the expression compiler. -/
theorem c7_witness :
    Ctx.filter ⟨[], []⟩ (.Num "7", sp0) [] [] = some (.Int 7, []) ∧
    Ctx.filter ⟨[], []⟩ (.Num "99999999999999999999", sp0) [] []
      = some (.Int 0, [⟨sp0, "cannot interpret as machine-size integer"⟩]) ∧
    filter (fun _ _ => none) [] (.Num "2e", sp0) [] []
      = some (.Float (.finite 0), [⟨sp0, "cannot interpret as floating-point number"⟩]) := by
  refine ⟨?_, ?_, ?_⟩
  · exact (c7_numeric_literals.1 ⟨[], []⟩ "7" sp0 [] []).2.2.1 7
      (by decide) (by decide)
  · exact (c7_numeric_literals.1 ⟨[], []⟩ "99999999999999999999" sp0 [] []).2.2.2
      (by decide) (by decide)
  · exact (c7_numeric_literals.2.1 (fun _ _ => none) [] "2e" sp0 [] []).2.1
      (by decide) (by decide)

/-- C6: self-recursion resolution.  First part: at a frame whose children do
not resolve the call, a zero-argument call whose name equals the frame's name
and whose frame has an empty parameter list resolves to Call with skip 0 and
the frame's id.  Second part: for a call with one or more arguments, a frame
whose children do not resolve it is skipped entirely, so neither the
argument branch nor the recursion branch can fire, whatever the frame's name
and parameters; a recursive call to a definition that takes arguments can
therefore only resolve through a cousin.  Third part: when no frame resolves
the call, the loop records one could-not-find-function diagnostic at the
call's span and emits Id. -/
theorem c6_self_recursion :
    (∀ (defs : List Filter) (name : String) (sp : Span)
        (targs : Option (List Filter × List Error)) (errs : List Error)
        (t : Parent) (rest : List Parent) (acc : Nat),
      t.children name 0 = none → t.name = name → t.args = [] →
      callLoop defs name 0 sp targs errs (t :: rest) acc = some (.Call 0 t.id, errs)) ∧
    (∀ (defs : List Filter) (name : String) (arity : Nat) (sp : Span)
        (targs : Option (List Filter × List Error)) (errs : List Error)
        (t : Parent) (rest : List Parent) (acc : Nat),
      arity ≠ 0 → t.children name arity = none →
      callLoop defs name arity sp targs errs (t :: rest) acc
        = callLoop defs name arity sp targs errs rest acc) ∧
    (∀ (defs : List Filter) (name : String) (arity : Nat) (sp : Span)
        (targs : Option (List Filter × List Error)) (errs : List Error)
        (frames : List Parent) (acc : Nat),
      (∀ t ∈ frames, t.children name arity = none ∧
        (arity = 0 → t.args.findIdx? (fun a => a.get_name == name) = none ∧
          ¬(t.name = name ∧ t.args = []))) →
      callLoop defs name arity sp targs errs frames acc
        = some (.Id, errs ++ [⟨sp, "could not find function"⟩])) := by
  refine ⟨?_, ?_, ?_⟩
  · intro defs name sp targs errs t rest acc hch hname hargs
    rw [callLoop, hch, hargs]
    simp [hname]
  · intro defs name arity sp targs errs t rest acc har hch
    rw [callLoop, hch]
    simp [har]
  · intro defs name arity sp targs errs frames
    induction frames with
    | nil => intro acc _; rw [callLoop]
    | cons t rest ih =>
      intro acc h
      obtain ⟨hch, hz⟩ := h t (by simp)
      have hrest : ∀ u ∈ rest, u.children name arity = none ∧
          (arity = 0 → u.args.findIdx? (fun a => a.get_name == name) = none ∧
            ¬(u.name = name ∧ u.args = [])) :=
        fun u hu => h u (List.mem_cons_of_mem t hu)
      rw [callLoop, hch]
      by_cases har : arity = 0
      · obtain ⟨hidx, hno⟩ := hz har
        subst har
        simp only [ne_eq, not_true_eq_false, if_false, hidx]
        rw [if_neg hno]
        exact ih _ hrest
      · rw [if_pos har]
        exact ih _ hrest

/-- Witness for C6: a frame f with empty parameters resolves the
zero-argument call f to Call 0 id; a one-argument call g at a frame named g
with parameters falls through the whole stack and yields Id with one
diagnostic. -/
theorem c6_witness :
    callLoop [] "f" 0 sp0 (some ([], [])) [] [⟨"f", [], 3, fun _ _ => none⟩] 0
      = some (.Call 0 3, []) ∧
    callLoop [] "g" 1 sp0 (some ([.Id], [])) [] [⟨"g", [Arg.Fun "x"], 3, fun _ _ => none⟩] 0
      = some (.Id, [⟨sp0, "could not find function"⟩]) := by
  constructor
  · exact c6_self_recursion.1 [] "f" sp0 (some ([], [])) [] ⟨"f", [], 3, fun _ _ => none⟩ [] 0
      rfl rfl rfl
  · exact c6_self_recursion.2.2 [] "g" 1 sp0 (some ([.Id], [])) []
      [⟨"g", [Arg.Fun "x"], 3, fun _ _ => none⟩] 0
      (by intro t ht
          simp only [List.mem_singleton] at ht
          subst ht
          exact ⟨rfl, by intro h; exact absurd h one_ne_zero⟩)

/-- On a call that does not bind to an externally supplied argument name as a
zero-argument call, the expression compiler takes the builtin path: look up
(name, arity), recording one diagnostic and falling back to Id when the
lookup fails, then translate the arguments and substitute them for the
template's Arg placeholders. -/
theorem filter_call_builtin (fns : String → Nat → Option Filter) (args : List String)
    (name : String) (cargs : List (Expr × Span)) (sp : Span) (vars : List String)
    (errs : List Error)
    (hmiss : rposition args name = none ∨ cargs ≠ []) :
    filter fns args (.Call name cargs, sp) vars errs
      = (let start : Filter × List Error :=
           match fns name cargs.length with
           | some f => (f, errs)
           | none => (Filter.Id, errs ++ [⟨sp, "could not find function"⟩])
         do
           let (targs, errs2) ← filterListE fns args cargs vars start.2
           let r ← start.1.subst 0 (fun _ v => v) (fun _ a => targs[a]?)
           some (r, errs2)) := by
  rcases hmiss with h | h
  · rw [filter.eq_def]
    dsimp only
    rw [h]
  · cases cargs with
    | nil => exact absurd rfl h
    | cons a as =>
      rw [filter.eq_def]
      dsimp only
      cases hr : rposition args name <;> rfl

/-- C4: in the expression compiler, a zero-argument call whose name matches
one of the externally supplied argument names, at the matched position, is
translated to Arg(pos) when no local variables are pending and to
SkipCtx(n, Arg(pos)) with n the number of pending local variables otherwise;
any other call queries fns(name, arity) and, when a template is returned,
substitutes each Arg placeholder of the template with the corresponding
translated call argument, leaving variable indices unchanged: the variable
mapper is the identity at initial depth 0. -/
theorem c4_expression_call_resolution :
    (∀ (fns : String → Nat → Option Filter) (args : List String) (name : String) (sp : Span)
        (vars : List String) (errs : List Error) (pos : Nat),
      rposition args name = some pos →
      filter fns args (.Call name [], sp) vars errs
        = some (if vars.isEmpty then .Arg pos else .SkipCtx vars.length (.Arg pos), errs)) ∧
    (∀ (fns : String → Nat → Option Filter) (args : List String) (name : String)
        (cargs : List (Expr × Span)) (sp : Span) (vars : List String) (errs : List Error)
        (tpl : Filter) (targs : List Filter) (errs2 : List Error),
      (rposition args name = none ∨ cargs ≠ []) →
      fns name cargs.length = some tpl →
      filterListE fns args cargs vars errs = some (targs, errs2) →
      filter fns args (.Call name cargs, sp) vars errs
        = (tpl.subst 0 (fun _ v => v) (fun _ a => targs[a]?)).bind fun r => some (r, errs2)) := by
  constructor
  · intro fns args name sp vars errs pos h
    rw [filter.eq_def]
    dsimp only
    rw [h]
  · intro fns args name cargs sp vars errs tpl targs errs2 hmiss htpl hlist
    rw [filter_call_builtin fns args name cargs sp vars errs hmiss]
    simp [htpl, hlist]

/-- Witness for C4: with argument names a, b, the call b with no pending
locals gives Arg 1, with one pending local gives SkipCtx 1 (Arg 1); a call h
with one argument and a builtin template Pipe(Arg 0, false, Arg 0) gives the
translated argument substituted at both placeholders. -/
theorem c4_witness :
    filter (fun _ _ => none) ["a", "b"] (.Call "b" [], sp0) [] []
      = some (.Arg 1, []) ∧
    filter (fun _ _ => none) ["a", "b"] (.Call "b" [], sp0) ["x"] []
      = some (.SkipCtx 1 (.Arg 1), []) ∧
    filter (fun n k => if n = "h" ∧ k = 1 then some (.Pipe (.Arg 0) false (.Arg 0)) else none)
        [] (.Call "h" [(.Str "s", sp0)], sp0) [] []
      = some (.Pipe (.Str "s") false (.Str "s"), []) := by
  refine ⟨?_, ?_, ?_⟩
  · exact c4_expression_call_resolution.1 (fun _ _ => none) ["a", "b"] "b" sp0 [] [] 1
      (by decide)
  · exact c4_expression_call_resolution.1 (fun _ _ => none) ["a", "b"] "b" sp0 ["x"] [] 1
      (by decide)
  · have h := c4_expression_call_resolution.2
      (fun n k => if n = "h" ∧ k = 1 then some (.Pipe (.Arg 0) false (.Arg 0)) else none)
      [] "h" [(.Str "s", sp0)] sp0 [] [] (.Pipe (.Arg 0) false (.Arg 0)) [.Str "s"] []
      (by left; decide) (by simp) (by simp [filterListE, filter])
    rw [h]
    simp [Filter.subst]

mutual

/-- Compiling one definition appends exactly Def.count d slots to the table,
never changes any already-present slot, and preserves the tail of the scope
stack, only updating the children of the frame below. -/
theorem defn_table_growth :
    ∀ (d : Def) (c : Ctx) (errs : List Error) (c' : Ctx) (errs' : List Error),
      Ctx.defn c d errs = some (c', errs') →
      c'.defs.length = c.defs.length + Def.count d ∧
      (∀ i, i < c.defs.length → c'.defs[i]? = c.defs[i]?) ∧
      (∀ p rest, c.tree = p :: rest →
        ∃ ch, c'.tree = Parent.mk p.name p.args p.id ch :: rest)
  | .mk nm as ds body, c, errs, c', errs' => by
    intro h
    rw [Ctx.defn.eq_def] at h
    dsimp only at h
    cases h1 : Ctx.defnList ⟨⟨nm, as, c.defs.length, fun _ _ => none⟩ :: c.tree,
        c.defs ++ [Filter.default]⟩ ds errs with
    | none => rw [h1] at h; exact absurd h (by simp)
    | some p =>
      obtain ⟨c2, errs1⟩ := p
      rw [h1] at h
      simp only [Option.bind_eq_bind, Option.some_bind] at h
      have ih := defnList_table_growth ds _ errs c2 errs1 h1
      obtain ⟨len2, pre2, tree2⟩ := ih
      simp only [List.length_append, List.length_cons] at len2
      obtain ⟨ch, htree2⟩ := tree2 ⟨nm, as, c.defs.length, fun _ _ => none⟩ c.tree rfl
      cases h2 : Ctx.filter c2 body [] errs1 with
      | none => rw [h2] at h; exact absurd h (by simp)
      | some q =>
        obtain ⟨f, errs2⟩ := q
        rw [h2] at h
        simp only [Option.bind_eq_bind, Option.some_bind] at h
        cases h3 : Ctx.close c2 f with
        | none => rw [h3] at h; exact absurd h (by simp)
        | some c3 =>
          rw [h3] at h
          simp only [Option.bind_eq_bind, Option.some_bind, Option.some.injEq, Prod.mk.injEq] at h
          obtain ⟨hc', herrs'⟩ := h
          subst hc'
          rw [Ctx.close, htree2] at h3
          cases htl : c.tree with
          | nil =>
            rw [htl] at h3
            exact absurd h3 (by simp)
          | cons parent rest0 =>
            rw [htl] at h3
            simp only [Option.some.injEq] at h3
            subst h3
            refine ⟨?_, ?_, ?_⟩
            · simp only [List.length_set, len2, Def.count, List.length_nil]
              omega
            · intro i hi
              have hne : c.defs.length ≠ i := by omega
              rw [List.getElem?_set_ne hne]
              rw [pre2 i (by
                simp only [List.length_append, List.length_cons, List.length_nil]
                omega)]
              rw [List.getElem?_append]
              simp [hi]
            · intro p rest hpr
              injection hpr with hp hrest
              subst hp
              subst hrest
              exact ⟨_, rfl⟩

/-- Compiling a list of definitions appends exactly Def.countList ds slots,
never changes any already-present slot, and preserves the tail of the scope
stack, only updating the children of the head frame. -/
theorem defnList_table_growth :
    ∀ (ds : List Def) (c : Ctx) (errs : List Error) (c' : Ctx) (errs' : List Error),
      Ctx.defnList c ds errs = some (c', errs') →
      c'.defs.length = c.defs.length + Def.countList ds ∧
      (∀ i, i < c.defs.length → c'.defs[i]? = c.defs[i]?) ∧
      (∀ p rest, c.tree = p :: rest →
        ∃ ch, c'.tree = Parent.mk p.name p.args p.id ch :: rest)
  | [], c, errs, c', errs' => by
    intro h
    rw [Ctx.defnList] at h
    simp only [Option.some.injEq, Prod.mk.injEq] at h
    obtain ⟨hc, _⟩ := h
    subst hc
    exact ⟨by simp [Def.countList], fun i _ => rfl,
      fun p rest hpr => ⟨p.children, by rw [hpr]⟩⟩
  | d :: ds, c, errs, c', errs' => by
    intro h
    rw [Ctx.defnList] at h
    cases h1 : Ctx.defn c d errs with
    | none => rw [h1] at h; exact absurd h (by simp)
    | some p =>
      obtain ⟨c1, errs1⟩ := p
      rw [h1] at h
      simp only [Option.bind_eq_bind, Option.some_bind] at h
      obtain ⟨len1, pre1, tree1⟩ := defn_table_growth d c errs c1 errs1 h1
      obtain ⟨len2, pre2, tree2⟩ := defnList_table_growth ds c1 errs1 c' errs' h
      refine ⟨?_, ?_, ?_⟩
      · rw [len2, len1, Def.countList]
        omega
      · intro i hi
        rw [pre2 i (by omega), pre1 i hi]
      · intro p rest hpr
        obtain ⟨ch1, htree1⟩ := tree1 p rest hpr
        obtain ⟨ch2, htree2⟩ := tree2 _ rest htree1
        exact ⟨ch2, htree2⟩

end

/-- C9: compiling a definition grows the filter table by exactly the number
of its def nodes, itself plus all nested ones, and never changes a slot that
already existed, so a reserved id never moves; the slot of each definition is
reserved, holding the default placeholder, at the moment its frame is pushed,
before its nested definitions and its body are translated, at index equal to
the table length at that moment.  Consequently the table of a compiled module
has exactly one slot per def node of the source. -/
theorem c9_table_invariants :
    (∀ (d : Def) (c : Ctx) (errs : List Error) (c' : Ctx) (errs' : List Error),
      Ctx.defn c d errs = some (c', errs') →
      c'.defs.length = c.defs.length + Def.count d ∧
      ∀ i, i < c.defs.length → c'.defs[i]? = c.defs[i]?) ∧
    (∀ (ds : List Def) (body : Expr × Span) (table : List Filter) (top : Filter)
        (errs : List Error),
      compileModule ds body = some (table, top, errs) →
      table.length = Def.countList ds) := by
  constructor
  · intro d c errs c' errs' h
    obtain ⟨h1, h2, _⟩ := defn_table_growth d c errs c' errs' h
    exact ⟨h1, h2⟩
  · intro ds body table top errs h
    rw [compileModule] at h
    cases h1 : Ctx.defnList ⟨[⟨"", [], 0, fun _ _ => none⟩], []⟩ ds [] with
    | none => rw [h1] at h; exact absurd h (by simp)
    | some p =>
      obtain ⟨c1, errs1⟩ := p
      rw [h1] at h
      simp only [Option.bind_eq_bind, Option.some_bind] at h
      cases h2 : Ctx.filter c1 body [] errs1 with
      | none => rw [h2] at h; exact absurd h (by simp)
      | some q =>
        obtain ⟨topf, errs2⟩ := q
        rw [h2] at h
        simp only [Option.bind_eq_bind, Option.some_bind, Option.some.injEq,
          Prod.mk.injEq] at h
        obtain ⟨htable, _⟩ := h
        obtain ⟨len1, _, _⟩ := defnList_table_growth ds _ [] c1 errs1 h1
        rw [← htable, len1]
        simp

/-- Witness for C9: compiling a definition g that nests a definition h into
an empty table yields a table of exactly two slots. -/
theorem c9_witness :
    (Ctx.defn ⟨[⟨"", [], 0, fun _ _ => none⟩], []⟩
        (.mk "g" [] [.mk "h" [] [] (.Id, sp0)] (.Id, sp0)) []).map
      (fun p => p.1.defs.length) = some 2 := by
  rcases hd : Ctx.defn ⟨[⟨"", [], 0, fun _ _ => none⟩], []⟩
      (.mk "g" [] [.mk "h" [] [] (.Id, sp0)] (.Id, sp0)) [] with _ | ⟨c', errs'⟩
  · exact absurd hd (by
      simp [Ctx.defn, Ctx.defnList, Ctx.filter, Ctx.close, Filter.default, sp0, List.enum])
  · have h := (c9_table_invariants.1 (.mk "g" [] [.mk "h" [] [] (.Id, sp0)] (.Id, sp0))
      ⟨[⟨"", [], 0, fun _ _ => none⟩], []⟩ [] c' errs' hd).1
    rw [Option.map_some', Option.some.injEq, h]
    simp [Def.count, Def.countList]

/-- A list lookup is defined exactly below the length. -/
theorem isSome_getElem? {α : Type} (l : List α) (i : Nat) :
    (l[i]?).isSome = decide (i < l.length) := by
  by_cases h : i < l.length
  · simp [List.getElem?_eq_getElem h, h]
  · simp [List.getElem?_eq_none (Nat.le_of_not_lt h), h]

mutual

/-- Substitution with the unguarded argument-list lookup as argument mapper
succeeds exactly when every Arg index of the filter is below the number of
translated arguments. -/
theorem subst_isSome_eq_argsBelow :
    ∀ (f : Filter) (vs : Nat) (fv : Nat → Nat → Nat) (targs : List Filter),
      (f.subst vs fv fun _ a => targs[a]?).isSome = f.argsBelow targs.length
  | .Id => by intro vs fv targs; simp [Filter.subst, Filter.argsBelow]
  | .Int n => by intro vs fv targs; simp [Filter.subst, Filter.argsBelow]
  | .Float q => by intro vs fv targs; simp [Filter.subst, Filter.argsBelow]
  | .Str s => by intro vs fv targs; simp [Filter.subst, Filter.argsBelow]
  | .Var v => by intro vs fv targs; simp [Filter.subst, Filter.argsBelow]
  | .Call sk id => by intro vs fv targs; simp [Filter.subst, Filter.argsBelow]
  | .Recurse => by intro vs fv targs; simp [Filter.subst, Filter.argsBelow]
  | .Array none => by intro vs fv targs; simp [Filter.subst, Filter.argsBelow]
  | .Arg a => by
    intro vs fv targs
    simp only [Filter.subst, Filter.argsBelow]
    exact isSome_getElem? targs a
  | .Array (some g) => by
    intro vs fv targs
    have hg := subst_isSome_eq_argsBelow g vs fv targs
    simp only [Filter.subst, Filter.argsBelow]
    cases hG : Filter.subst g vs fv fun _ a => targs[a]? <;> simp_all
  | .Neg g => by
    intro vs fv targs
    have hg := subst_isSome_eq_argsBelow g vs fv targs
    simp only [Filter.subst, Filter.argsBelow]
    cases hG : Filter.subst g vs fv fun _ a => targs[a]? <;> simp_all
  | .Try g => by
    intro vs fv targs
    have hg := subst_isSome_eq_argsBelow g vs fv targs
    simp only [Filter.subst, Filter.argsBelow]
    cases hG : Filter.subst g vs fv fun _ a => targs[a]? <;> simp_all
  | .SkipCtx n g => by
    intro vs fv targs
    have hg := subst_isSome_eq_argsBelow g vs fv targs
    simp only [Filter.subst, Filter.argsBelow]
    cases hG : Filter.subst g vs fv fun _ a => targs[a]? <;> simp_all
  | .Object kvs => by
    intro vs fv targs
    have hk := substKvs_isSome_eq_argsBelow kvs vs fv targs
    simp only [Filter.subst, Filter.argsBelow]
    cases hK : substKvs kvs vs fv fun _ a => targs[a]? <;> simp_all
  | .Pipe l b r => by
    intro vs fv targs
    have hl := subst_isSome_eq_argsBelow l vs fv targs
    have hr := subst_isSome_eq_argsBelow r (if b then vs + 1 else vs) fv targs
    simp only [Filter.subst, Filter.argsBelow]
    cases hL : Filter.subst l vs fv fun _ a => targs[a]? <;>
      cases hR : Filter.subst r (if b then vs + 1 else vs) fv fun _ a => targs[a]? <;>
        simp_all
  | .Comma l r => by
    intro vs fv targs
    have hl := subst_isSome_eq_argsBelow l vs fv targs
    have hr := subst_isSome_eq_argsBelow r vs fv targs
    simp only [Filter.subst, Filter.argsBelow]
    cases hL : Filter.subst l vs fv fun _ a => targs[a]? <;>
      cases hR : Filter.subst r vs fv fun _ a => targs[a]? <;> simp_all
  | .Alt l r => by
    intro vs fv targs
    have hl := subst_isSome_eq_argsBelow l vs fv targs
    have hr := subst_isSome_eq_argsBelow r vs fv targs
    simp only [Filter.subst, Filter.argsBelow]
    cases hL : Filter.subst l vs fv fun _ a => targs[a]? <;>
      cases hR : Filter.subst r vs fv fun _ a => targs[a]? <;> simp_all
  | .Logic l b r => by
    intro vs fv targs
    have hl := subst_isSome_eq_argsBelow l vs fv targs
    have hr := subst_isSome_eq_argsBelow r vs fv targs
    simp only [Filter.subst, Filter.argsBelow]
    cases hL : Filter.subst l vs fv fun _ a => targs[a]? <;>
      cases hR : Filter.subst r vs fv fun _ a => targs[a]? <;> simp_all
  | .Math l op r => by
    intro vs fv targs
    have hl := subst_isSome_eq_argsBelow l vs fv targs
    have hr := subst_isSome_eq_argsBelow r vs fv targs
    simp only [Filter.subst, Filter.argsBelow]
    cases hL : Filter.subst l vs fv fun _ a => targs[a]? <;>
      cases hR : Filter.subst r vs fv fun _ a => targs[a]? <;> simp_all
  | .Ord l op r => by
    intro vs fv targs
    have hl := subst_isSome_eq_argsBelow l vs fv targs
    have hr := subst_isSome_eq_argsBelow r vs fv targs
    simp only [Filter.subst, Filter.argsBelow]
    cases hL : Filter.subst l vs fv fun _ a => targs[a]? <;>
      cases hR : Filter.subst r vs fv fun _ a => targs[a]? <;> simp_all
  | .Assign l r => by
    intro vs fv targs
    have hl := subst_isSome_eq_argsBelow l vs fv targs
    have hr := subst_isSome_eq_argsBelow r vs fv targs
    simp only [Filter.subst, Filter.argsBelow]
    cases hL : Filter.subst l vs fv fun _ a => targs[a]? <;>
      cases hR : Filter.subst r vs fv fun _ a => targs[a]? <;> simp_all
  | .Update l r => by
    intro vs fv targs
    have hl := subst_isSome_eq_argsBelow l vs fv targs
    have hr := subst_isSome_eq_argsBelow r vs fv targs
    simp only [Filter.subst, Filter.argsBelow]
    cases hL : Filter.subst l vs fv fun _ a => targs[a]? <;>
      cases hR : Filter.subst r vs fv fun _ a => targs[a]? <;> simp_all
  | .UpdateMath l op r => by
    intro vs fv targs
    have hl := subst_isSome_eq_argsBelow l vs fv targs
    have hr := subst_isSome_eq_argsBelow r vs fv targs
    simp only [Filter.subst, Filter.argsBelow]
    cases hL : Filter.subst l vs fv fun _ a => targs[a]? <;>
      cases hR : Filter.subst r vs fv fun _ a => targs[a]? <;> simp_all
  | .Ite fi ft fe => by
    intro vs fv targs
    have h1 := subst_isSome_eq_argsBelow fi vs fv targs
    have h2 := subst_isSome_eq_argsBelow ft vs fv targs
    have h3 := subst_isSome_eq_argsBelow fe vs fv targs
    simp only [Filter.subst, Filter.argsBelow]
    cases hA : Filter.subst fi vs fv fun _ a => targs[a]? <;>
      cases hB : Filter.subst ft vs fv fun _ a => targs[a]? <;>
        cases hC : Filter.subst fe vs fv fun _ a => targs[a]? <;> simp_all
  | .Fold ty xs init g => by
    intro vs fv targs
    have h1 := subst_isSome_eq_argsBelow xs vs fv targs
    have h2 := subst_isSome_eq_argsBelow init vs fv targs
    have h3 := subst_isSome_eq_argsBelow g (vs + 1) fv targs
    simp only [Filter.subst, Filter.argsBelow]
    cases hA : Filter.subst xs vs fv fun _ a => targs[a]? <;>
      cases hB : Filter.subst init vs fv fun _ a => targs[a]? <;>
        cases hC : Filter.subst g (vs + 1) fv fun _ a => targs[a]? <;> simp_all
  | .Path g parts => by
    intro vs fv targs
    have hg := subst_isSome_eq_argsBelow g vs fv targs
    have hp := substParts_isSome_eq_argsBelow parts vs fv targs
    simp only [Filter.subst, Filter.argsBelow]
    cases hG : Filter.subst g vs fv fun _ a => targs[a]? <;>
      cases hP : substParts parts vs fv fun _ a => targs[a]? <;> simp_all

/-- The object-entry form of subst_isSome_eq_argsBelow. -/
theorem substKvs_isSome_eq_argsBelow :
    ∀ (kvs : List (Filter × Filter)) (vs : Nat) (fv : Nat → Nat → Nat) (targs : List Filter),
      (substKvs kvs vs fv fun _ a => targs[a]?).isSome = argsBelowKvs targs.length kvs
  | [] => by intro vs fv targs; simp [substKvs, argsBelowKvs]
  | (k, v) :: rest => by
    intro vs fv targs
    have h1 := subst_isSome_eq_argsBelow k vs fv targs
    have h2 := subst_isSome_eq_argsBelow v vs fv targs
    have h3 := substKvs_isSome_eq_argsBelow rest vs fv targs
    simp only [substKvs, argsBelowKvs]
    cases hA : Filter.subst k vs fv fun _ a => targs[a]? <;>
      cases hB : Filter.subst v vs fv fun _ a => targs[a]? <;>
        cases hC : substKvs rest vs fv fun _ a => targs[a]? <;> simp_all

/-- The path-part form of subst_isSome_eq_argsBelow. -/
theorem substParts_isSome_eq_argsBelow :
    ∀ (parts : List (Part Filter × PathOpt)) (vs : Nat) (fv : Nat → Nat → Nat)
      (targs : List Filter),
      (substParts parts vs fv fun _ a => targs[a]?).isSome = argsBelowParts targs.length parts
  | [] => by intro vs fv targs; simp [substParts, argsBelowParts]
  | (.Index i, opt) :: rest => by
    intro vs fv targs
    have h1 := subst_isSome_eq_argsBelow i vs fv targs
    have h2 := substParts_isSome_eq_argsBelow rest vs fv targs
    simp only [substParts, argsBelowParts]
    cases hA : Filter.subst i vs fv fun _ a => targs[a]? <;>
      cases hB : substParts rest vs fv fun _ a => targs[a]? <;> simp_all
  | (.Range lo hi, opt) :: rest => by
    intro vs fv targs
    have h1 := substOpt_isSome_eq_argsBelow lo vs fv targs
    have h2 := substOpt_isSome_eq_argsBelow hi vs fv targs
    have h3 := substParts_isSome_eq_argsBelow rest vs fv targs
    simp only [substParts, argsBelowParts]
    cases hA : substOpt lo vs fv fun _ a => targs[a]? <;>
      cases hB : substOpt hi vs fv fun _ a => targs[a]? <;>
        cases hC : substParts rest vs fv fun _ a => targs[a]? <;> simp_all

/-- The optional-subtree form of subst_isSome_eq_argsBelow. -/
theorem substOpt_isSome_eq_argsBelow :
    ∀ (o : Option Filter) (vs : Nat) (fv : Nat → Nat → Nat) (targs : List Filter),
      (substOpt o vs fv fun _ a => targs[a]?).isSome = argsBelowOpt targs.length o
  | none => by intro vs fv targs; simp [substOpt, argsBelowOpt]
  | some g => by
    intro vs fv targs
    have hg := subst_isSome_eq_argsBelow g vs fv targs
    simp only [substOpt, argsBelowOpt]
    cases hG : Filter.subst g vs fv fun _ a => targs[a]? <;> simp_all

end

/-- The expression compiler translates argument lists length-preservingly. -/
theorem filterListE_length (fns : String → Nat → Option Filter) (args : List String) :
    ∀ (l : List (Expr × Span)) (vars : List String) (errs : List Error)
      (targs : List Filter) (errs2 : List Error),
      filterListE fns args l vars errs = some (targs, errs2) → targs.length = l.length
  | [] => by
    intro vars errs targs errs2 h
    rw [filterListE] at h
    simp only [Option.some.injEq, Prod.mk.injEq] at h
    rw [← h.1]
    rfl
  | a :: as => by
    intro vars errs targs errs2 h
    rw [filterListE] at h
    cases h1 : filter fns args a vars errs with
    | none => rw [h1] at h; exact absurd h (by simp)
    | some p =>
      obtain ⟨f, errs1⟩ := p
      rw [h1] at h
      simp only [Option.bind_eq_bind, Option.some_bind] at h
      cases h2 : filterListE fns args as vars errs1 with
      | none => rw [h2] at h; exact absurd h (by simp)
      | some q =>
        obtain ⟨fs, errs3⟩ := q
        rw [h2] at h
        simp only [Option.bind_eq_bind, Option.some_bind, Option.some.injEq,
          Prod.mk.injEq] at h
        have := filterListE_length fns args as vars errs1 fs errs3 h2
        rw [← h.1]
        simp [this]

/-- C10: translation is total only under the precondition that every Arg
index of the substituted filter is below the number of call arguments.
First: if some Arg index of a filter reaches the argument count, the
substitution with the unguarded argument lookup fails, the source panic,
instead of producing a diagnostic; second: if all Arg indices are below the
count, the substitution succeeds; third: on the expression compiler's builtin
path this makes the whole translation of the call fail, respectively
succeed, with the diagnostics accumulated so far and no extra one. -/
theorem c10_arg_substitution_partiality :
    (∀ (f : Filter) (vs : Nat) (fv : Nat → Nat → Nat) (targs : List Filter),
      f.argsBelow targs.length = false →
      f.subst vs fv (fun _ a => targs[a]?) = none) ∧
    (∀ (f : Filter) (vs : Nat) (fv : Nat → Nat → Nat) (targs : List Filter),
      f.argsBelow targs.length = true →
      (f.subst vs fv (fun _ a => targs[a]?)).isSome = true) ∧
    (∀ (fns : String → Nat → Option Filter) (args : List String) (name : String)
        (cargs : List (Expr × Span)) (sp : Span) (vars : List String) (errs : List Error)
        (tpl : Filter) (targs : List Filter) (errs2 : List Error),
      (rposition args name = none ∨ cargs ≠ []) →
      fns name cargs.length = some tpl →
      filterListE fns args cargs vars errs = some (targs, errs2) →
      (tpl.argsBelow cargs.length = false →
        filter fns args (.Call name cargs, sp) vars errs = none) ∧
      (tpl.argsBelow cargs.length = true →
        ∃ r, filter fns args (.Call name cargs, sp) vars errs = some (r, errs2))) := by
  refine ⟨?_, ?_, ?_⟩
  · intro f vs fv targs h
    have := subst_isSome_eq_argsBelow f vs fv targs
    rw [h] at this
    exact Option.not_isSome_iff_eq_none.mp (by rw [this]; exact Bool.false_ne_true)
  · intro f vs fv targs h
    rw [subst_isSome_eq_argsBelow f vs fv targs, h]
  · intro fns args name cargs sp vars errs tpl targs errs2 hmiss htpl hlist
    have hlen : targs.length = cargs.length := filterListE_length fns args cargs vars errs
      targs errs2 hlist
    have heq : filter fns args (.Call name cargs, sp) vars errs
        = (tpl.subst 0 (fun _ v => v) (fun _ a => targs[a]?)).bind fun r => some (r, errs2) := by
      rw [filter_call_builtin fns args name cargs sp vars errs hmiss]
      simp [htpl, hlist]
    constructor
    · intro hbelow
      rw [heq]
      have hnone : tpl.subst 0 (fun _ v => v) (fun _ a => targs[a]?) = none := by
        have := subst_isSome_eq_argsBelow tpl 0 (fun _ v => v) targs
        rw [hlen, hbelow] at this
        exact Option.not_isSome_iff_eq_none.mp (by rw [this]; exact Bool.false_ne_true)
      rw [hnone]
      rfl
    · intro hbelow
      rw [heq]
      have hsome := subst_isSome_eq_argsBelow tpl 0 (fun _ v => v) targs
      rw [hlen, hbelow] at hsome
      obtain ⟨r, hr⟩ := Option.isSome_iff_exists.mp hsome
      exact ⟨r, by rw [hr]; rfl⟩

/-- The builtin table used to witness C10: b of arity zero maps to the
template Arg 0, whose index reaches the arity, and g of arity one maps to the
same template, whose index is below the arity. -/
def fns10 : String → Nat → Option Filter := fun n k =>
  if n = "b" ∧ k = 0 then some (.Arg 0)
  else if n = "g" ∧ k = 1 then some (.Arg 0) else none

/-- Witness for C10: the zero-argument call b whose template contains Arg 0
makes translation fail with no diagnostic, while the one-argument call g with
the same template succeeds. -/
theorem c10_witness :
    filter fns10 [] (.Call "b" [], sp0) [] [] = none ∧
    (filter fns10 [] (.Call "g" [(.Str "s", sp0)], sp0) [] []).isSome = true := by
  constructor
  · exact (c10_arg_substitution_partiality.2.2 fns10 [] "b" [] sp0 [] [] (.Arg 0) [] []
      (by left; rfl) (by simp [fns10]) (by rw [filterListE])).1 (by decide)
  · obtain ⟨r, hr⟩ := (c10_arg_substitution_partiality.2.2 fns10 [] "g" [(.Str "s", sp0)]
      sp0 [] [] (.Arg 0) [.Str "s"] []
      (by left; rfl) (by simp [fns10]) (by simp [filterListE, filter])).2 (by decide)
    rw [hr]
    rfl

end Jaq
